import Mathlib

/-!
Verification development for the SARL crowd-navigation policy
(`dynav/policy/sarl.py`).

Floating-point numbers are modelled as real numbers (`ℝ`); tensors are
modelled as nested lists.  External collaborators declared by the design
document (dynamics propagation, the immediate reward function, the learned
value network seen from `predict`, the goal-reached predicate) are carried
as explicit function parameters in a `Collab` record, and code of the
repository that lives outside the file under verification (the base-policy
action-space builder) is modelled from the specification, with a doc
comment saying so.
-/

namespace Sarl

/-- Execution phase of the policy (`self.phase`, either the string
`train` or `eval`). -/
inductive Phase
  | train
  | eval
deriving DecidableEq, Repr

/-- Kinematics mode (`action_space.kinematics` configuration value,
the string `holonomic` or `unicycle`). -/
inductive Kinematics
  | holonomic
  | unicycle
deriving DecidableEq, Repr

/-- Motion action: tagged variant, either a holonomic velocity vector
(`ActionXY(vx, vy)`) or a unicycle rotation/speed pair (`ActionRot(v, r)`). -/
inductive Action
  | xy (vx vy : ℝ)
  | rot (v r : ℝ)

/-- Full (self) state of the navigating agent: position, velocity, radius,
goal position, preferred speed and heading, in the field order used when a
state is concatenated into a flat row. -/
structure FullState where
  px : ℝ
  py : ℝ
  vx : ℝ
  vy : ℝ
  radius : ℝ
  gx : ℝ
  gy : ℝ
  v_pref : ℝ
  theta : ℝ

/-- Observable state of one other agent: position, velocity and radius. -/
structure ObservableState where
  px : ℝ
  py : ℝ
  vx : ℝ
  vy : ℝ
  radius : ℝ

/-- Field list of a full state, in concatenation order. -/
def FullState.toList (s : FullState) : List ℝ :=
  [s.px, s.py, s.vx, s.vy, s.radius, s.gx, s.gy, s.v_pref, s.theta]

/-- Field list of an observable state, in concatenation order. -/
def ObservableState.toList (s : ObservableState) : List ℝ :=
  [s.px, s.py, s.vx, s.vy, s.radius]

/-- Joint state: the self state together with the ordered collection of
observed other-agent states (`state.self_state`, `state.ped_states`). -/
structure JointState where
  self_state : FullState
  ped_states : List ObservableState

/-- Errors raised by the precondition checks at the top of `predict`. -/
inductive PredictError
  | phaseDeviceUnset
  | epsilonUnset
deriving DecidableEq, Repr

/-- Modelled from the spec: the designated stop action of the tagged
`Action` variant selected by the configured kinematics mode (a zero
velocity vector under holonomic motion, a zero rotation/speed pair under
unicycle motion). -/
def stopAction : Kinematics → Action
  | .holonomic => .xy 0 0
  | .unicycle => .rot 0 0

/-- Configuration of the action-space builder: kinematics mode and the
deterministic speed and rotation sample values derived from the sampling
configuration (`speed_samples`, `rotation_samples`, `sampling`).  Speeds
are fractions of the preferred speed. -/
structure ActionConfig where
  kinematics : Kinematics
  speeds : List ℝ
  rotations : List ℝ

/-- Modelled from the spec: the external `ActionSpaceBuilder` collaborator
(`build_action_space` of the base policy, not part of the file under
verification).  It deterministically builds the finite ordered candidate
action set from the preferred speed: the designated stop action followed by
one action per (rotation, speed) sample pair, each action of the variant
selected by the configured kinematics mode. -/
noncomputable def build_action_space (cfg : ActionConfig) (v_pref : ℝ) : List Action :=
  stopAction cfg.kinematics ::
    cfg.rotations.flatMap fun r =>
      cfg.speeds.map fun sp =>
        match cfg.kinematics with
        | .holonomic => Action.xy (sp * v_pref * Real.cos r) (sp * v_pref * Real.sin r)
        | .unicycle => Action.rot (sp * v_pref) r

/-- External collaborators consumed by `predict`, as listed by the design
document: the goal-reached predicate, the one-timestep dynamics propagator
(for the self state and for an observed agent state), the immediate reward
function, and the learned value network together with the diagnostic
attention weights it caches for a single-sample batch. -/
structure Collab where
  reach_destination : JointState → Bool
  propagate_self : FullState → Action → FullState
  propagate_ped : ObservableState → Action → ObservableState
  reward : JointState → Action → Kinematics → ℝ → ℝ
  model : List (List ℝ) → ℝ
  modelWeights : List (List ℝ) → List ℝ

/-- Mutable state of the `SARL` policy object that `predict` reads or
writes: lifecycle attributes (`phase`, `device`, `epsilon`), configured
constants (`gamma`, `time_step`, the action-space configuration), and the
caches `action_space`, `last_state` and `model.attention_weights`. -/
structure PolicyState where
  phase : Option Phase
  device : Option Unit
  epsilon : Option ℝ
  gamma : ℝ
  time_step : ℝ
  cfg : ActionConfig
  action_space : List Action
  last_state : Option (List (List ℝ))
  attention_weights : Option (List ℝ)

/-- Ego-and-agent row used in `transform` and in the lookahead batch:
the concatenation of the self-state fields with one agent's fields
(`torch.Tensor([self_state + ped_state])`). -/
def jointRow (s : FullState) (ped : ObservableState) : List ℝ :=
  s.toList ++ ped.toList

/-- Translation of `SARL.transform` (sarl.py lines 105-113): one row per
observed agent, each row the concatenation of the self state with that
agent's state, rows stacked in agent order. -/
def transform (st : JointState) : List (List ℝ) :=
  st.ped_states.map fun ped => jointRow st.self_state ped

/-- Row of the lookahead batch for candidate action `a` and observed agent
`ped` (sarl.py lines 89-91): the self state propagated one timestep under
`a`, concatenated with `ped` propagated one timestep under its currently
observed velocity `ActionXY(ped.vx, ped.vy)`. -/
def nextRow (c : Collab) (st : JointState) (a : Action) (ped : ObservableState) : List ℝ :=
  (c.propagate_self st.self_state a).toList ++
    (c.propagate_ped ped (Action.xy ped.vx ped.vy)).toList

/-- Single-sample lookahead batch for candidate action `a` (sarl.py lines
87-93): one row per observed agent, in agent order. -/
def nextSample (c : Collab) (st : JointState) (a : Action) : List (List ℝ) :=
  st.ped_states.map fun ped => nextRow c st a ped

/-- Candidate value of action `a` (sarl.py lines 94-95): immediate reward
of the current state under `a` plus `gamma ** v_pref` times the network
value of the propagated single-sample batch. -/
noncomputable def candValue (c : Collab) (p : PolicyState) (st : JointState) (a : Action) : ℝ :=
  c.reward st a p.cfg.kinematics p.time_step +
    p.gamma ^ st.self_state.v_pref * c.model (nextSample c st a)

/-- Running-maximum loop of the exploitation path (sarl.py lines 84-98):
`max_value` starts at negative infinity (modelled by a `none`
accumulator, which any real value strictly exceeds), and an action
replaces the incumbent exactly when its value is strictly greater. -/
noncomputable def maxLoop (f : Action → ℝ) : List Action → Option (ℝ × Action) → Option (ℝ × Action)
  | [], acc => acc
  | a :: rest, acc =>
      maxLoop f rest
        (match acc with
          | none => some (f a, a)
          | some (mv, ma) => if mv < f a then some (f a, a) else some (mv, ma))

/-- Translation of `SARL.predict` (sarl.py lines 63-103).  The uniform
draw `np.random.random()` is passed in as `probability` and the uniform
index draw `np.random.choice` as `choice`.  The result pairs the returned
action (`none` when the exploitation loop had no candidate to select) with
the policy state after the call. -/
noncomputable def predict (c : Collab) (p : PolicyState) (st : JointState)
    (probability : ℝ) (choice : ℕ) :
    Except PredictError (Option Action × PolicyState) :=
  if p.phase = none ∨ p.device = none then
    .error .phaseDeviceUnset
  else if p.phase = some .train ∧ p.epsilon = none then
    .error .epsilonUnset
  else if c.reach_destination st then
    .ok (some (Action.xy 0 0), p)
  else
    let as := build_action_space p.cfg st.self_state.v_pref
    let p1 : PolicyState := { p with action_space := as }
    if p.phase = some .train ∧ probability < p.epsilon.getD 0 then
      let a := as.getD (choice % as.length) (Action.xy 0 0)
      let p2 : PolicyState :=
        if p.phase = some .train then { p1 with last_state := some (transform st) } else p1
      .ok (some a, p2)
    else
      let res := maxLoop (candValue c p st) as none
      let p2 : PolicyState :=
        match as.getLast? with
        | none => p1
        | some aL => { p1 with attention_weights := some (c.modelWeights (nextSample c st aL)) }
      let p3 : PolicyState :=
        if p.phase = some .train then { p2 with last_state := some (transform st) } else p2
      .ok (res.map fun va => va.2, p3)

/-- Fully-connected layer: weight matrix (one row per output unit) and
bias vector. -/
structure Linear where
  w : List (List ℝ)
  b : List ℝ

/-- Dot product of two coordinate lists (truncating to the shorter). -/
def dot (xs ys : List ℝ) : ℝ :=
  ((xs.zip ys).map fun q => q.1 * q.2).sum

/-- Application of a fully-connected layer to an input vector. -/
def Linear.apply (l : Linear) (x : List ℝ) : List ℝ :=
  (l.w.zip l.b).map fun q => dot q.1 x + q.2

/-- Output width of a fully-connected layer. -/
def Linear.outWidth (l : Linear) : ℕ :=
  (l.w.zip l.b).length

/-- Rectified-linear activation, elementwise. -/
def reluVec (x : List ℝ) : List ℝ :=
  x.map fun v => max v 0

/-- Learned parameters of the attention value network (sarl.py lines
16-21): the four linear layers of `mlp1` (rectified-linear activations
between them), the attention scoring layer (`mlp2_dims → 1`), and the
value head `mlp2` (`mlp2_dims → 1`). -/
structure NetParams where
  l1 : Linear
  l2 : Linear
  l3 : Linear
  l4 : Linear
  att : Linear
  out : Linear

/-- Per-row embedding computed by `mlp1` (sarl.py lines 16-19, 33):
`Linear → ReLU → Linear → ReLU → Linear → ReLU → Linear`. -/
def mlp1Out (p : NetParams) (x : List ℝ) : List ℝ :=
  p.l4.apply (reluVec (p.l3.apply (reluVec (p.l2.apply (reluVec (p.l1.apply x))))))

/-- Embedding of one coordinate-transformed row.  The parameter `R`
stands for the external `VN.rotate` coordinate transform (base-policy
code outside the file under verification), applied per row with the
configured kinematics already fixed. -/
def emb (p : NetParams) (R : List ℝ → List ℝ) (row : List ℝ) : List ℝ :=
  mlp1Out p (R row)

/-- Attention score of one row (sarl.py line 34): the scalar output of
the attention layer applied to the row's embedding. -/
def attScore (p : NetParams) (R : List ℝ → List ℝ) (row : List ℝ) : ℝ :=
  ((p.att.apply (emb p R row)).headD 0)

/-- Scores of the rows of one batch sample, in agent order. -/
def sampleScores (p : NetParams) (R : List ℝ → List ℝ) (sample : List (List ℝ)) : List ℝ :=
  sample.map fun row => attScore p R row

/-- Softmax over a score list (sarl.py line 35, softmax over the agent
dimension): real-number semantics of `torch.nn.functional.softmax`. -/
noncomputable def softmax (xs : List ℝ) : List ℝ :=
  xs.map fun x => Real.exp x / (xs.map Real.exp).sum

/-- Attention weights of one batch sample: softmax over its row scores. -/
noncomputable def sampleWeights (p : NetParams) (R : List ℝ → List ℝ)
    (sample : List (List ℝ)) : List ℝ :=
  softmax (sampleScores p R sample)

/-- Weighted aggregated feature of one batch sample (sarl.py lines
38-39): coordinate `j` is the sum over agents of attention weight times
embedding coordinate `j` (`torch.sum(weights.expand_as(features) *
features, dim=1)`).  The embedding width is fixed by the last `mlp1`
layer, independent of the input row. -/
noncomputable def weightedFeature (p : NetParams) (R : List ℝ → List ℝ)
    (sample : List (List ℝ)) : List ℝ :=
  (List.range p.l4.outWidth).map fun j =>
    (((sampleWeights p R sample).zip (sample.map fun row => emb p R row)).map
      fun we => we.1 * we.2.getD j 0).sum

/-- Scalar value of one batch sample (sarl.py line 40): the value head
applied to the aggregated feature. -/
noncomputable def sampleValue (p : NetParams) (R : List ℝ → List ℝ)
    (sample : List (List ℝ)) : ℝ :=
  (p.out.apply (weightedFeature p R sample)).headD 0

/-- Batched forward evaluation of the value network (sarl.py lines
24-41), on a batch of shape `(batch, N, D)` modelled as a list of
samples: the first component is the per-sample value, the second is the
diagnostic attention-weight cache written by the call — the weight
vector of the first batch sample (sarl.py line 37). -/
noncomputable def forward (p : NetParams) (R : List ℝ → List ℝ)
    (batch : List (List (List ℝ))) : List ℝ × Option (List ℝ) :=
  (batch.map fun sample => sampleValue p R sample,
    batch.head?.map fun sample => sampleWeights p R sample)

/-- Action component of a `predict` result: `none` when the call failed
with a precondition error. -/
def resultAction (r : Except PredictError (Option Action × PolicyState)) : Option (Option Action) :=
  match r with
  | .ok (a, _) => some a
  | .error _ => none

/-- State component of a `predict` result. -/
def resultState (r : Except PredictError (Option Action × PolicyState)) : Option PolicyState :=
  match r with
  | .ok (_, p) => some p
  | .error _ => none

/-! Concrete objects used by the closed witness theorems. -/

/-- Concrete self state used in witnesses. -/
def wSelf : FullState :=
  { px := 0, py := 0, vx := 0, vy := 0, radius := 1, gx := 5, gy := 0, v_pref := 1, theta := 0 }

/-- Concrete observed agent used in witnesses. -/
def wPed : ObservableState :=
  { px := 1, py := 0, vx := 0, vy := 0, radius := 1 }

/-- Second concrete observed agent used in witnesses. -/
def wPed2 : ObservableState :=
  { px := 2, py := 1, vx := 0, vy := 0, radius := 1 }

/-- Concrete joint state with one observed agent. -/
def wState : JointState :=
  { self_state := wSelf, ped_states := [wPed] }

/-- Concrete holonomic action-space configuration with no sampled
rotations or speeds: the candidate space is just the stop action. -/
def wCfg : ActionConfig :=
  { kinematics := .holonomic, speeds := [], rotations := [] }

/-- Concrete unicycle action-space configuration with no sampled
rotations or speeds. -/
def wCfgU : ActionConfig :=
  { kinematics := .unicycle, speeds := [], rotations := [] }

/-- Concrete policy state builder over a phase, an exploration rate and
an action-space configuration. -/
def wPolicy (ph : Option Phase) (eps : Option ℝ) (cfg : ActionConfig) : PolicyState :=
  { phase := ph, device := some (), epsilon := eps, gamma := 1, time_step := 1,
    cfg := cfg, action_space := [], last_state := none, attention_weights := none }

/-- Concrete collaborator record: the goal is never reached, propagation
is the identity, the reward and the network value are zero. -/
def wCollab : Collab :=
  { reach_destination := fun _ => false, propagate_self := fun s _ => s,
    propagate_ped := fun o _ => o, reward := fun _ _ _ _ => 0,
    model := fun _ => 0, modelWeights := fun _ => [] }

/-- Concrete collaborator record whose goal-reached predicate always
holds. -/
def wCollabGoal : Collab :=
  { wCollab with reach_destination := fun _ => true }

/-- Concrete one-unit linear layer. -/
def wLin : Linear := { w := [[1]], b := [0] }

/-- Concrete network parameters built from one-unit layers. -/
def wNet : NetParams :=
  { l1 := wLin, l2 := wLin, l3 := wLin, l4 := wLin, att := wLin, out := wLin }

/-! Softmax facts used by the attention-weight claims. -/

/-- Entries of a softmax vector are nonnegative. -/
theorem softmax_nonneg (xs : List ℝ) : ∀ w ∈ softmax xs, 0 ≤ w := by
  intro w hw
  simp only [softmax, List.mem_map] at hw
  obtain ⟨x, _, rfl⟩ := hw
  refine div_nonneg (Real.exp_nonneg x) (List.sum_nonneg ?_)
  intro y hy
  simp only [List.mem_map] at hy
  obtain ⟨z, _, rfl⟩ := hy
  exact Real.exp_nonneg z

/-- Entries of the softmax of a nonempty score list sum to one. -/
theorem softmax_sum_eq_one (xs : List ℝ) (h : xs ≠ []) : (softmax xs).sum = 1 := by
  have hpos : 0 < (xs.map Real.exp).sum := by
    refine List.sum_pos _ ?_ (by simp [h])
    intro y hy
    simp only [List.mem_map] at hy
    obtain ⟨z, _, rfl⟩ := hy
    exact Real.exp_pos z
  simp only [softmax, div_eq_mul_inv]
  rw [List.sum_map_mul_right]
  exact mul_inv_cancel₀ (ne_of_gt hpos)

/-- C3: for every batch of joint states whose samples each hold at least
one agent row, the attention weights computed for each batch row are all
nonnegative and sum to 1, and the weight vector of the first batch
sample is stored as the diagnostic attention weights of the forward
evaluation. -/
theorem forward_attention_weights (p : NetParams) (R : List ℝ → List ℝ)
    (batch : List (List (List ℝ))) (hb : batch ≠ [])
    (hN : ∀ s ∈ batch, s ≠ []) :
    (∀ s ∈ batch, (∀ w ∈ sampleWeights p R s, 0 ≤ w) ∧ (sampleWeights p R s).sum = 1) ∧
      (forward p R batch).2 = some (sampleWeights p R (batch.headD [])) := by
  constructor
  · intro s hs
    refine ⟨softmax_nonneg _, softmax_sum_eq_one _ ?_⟩
    simp [sampleScores, hN s hs]
  · cases batch with
    | nil => exact absurd rfl hb
    | cons s t => simp [forward]

/-- Witness for C3 at a concrete one-sample, one-agent batch. -/
theorem forward_attention_weights_witness :
    (∀ s ∈ [[[(0 : ℝ)]]], (∀ w ∈ sampleWeights wNet id s, 0 ≤ w) ∧
        (sampleWeights wNet id s).sum = 1) ∧
      (forward wNet id [[[(0 : ℝ)]]]).2 =
        some (sampleWeights wNet id ([[[(0 : ℝ)]]].headD [])) :=
  forward_attention_weights wNet id [[[(0 : ℝ)]]] (by simp) (by simp)

/-! Permutation invariance of the attention-pooled value. -/

/-- Closed form of the per-sample attention weights: each row's weight is
its exponentiated score over the sum of exponentiated scores. -/
theorem sampleWeights_eq (p : NetParams) (R : List ℝ → List ℝ) (s : List (List ℝ)) :
    sampleWeights p R s =
      s.map fun row => Real.exp (attScore p R row) /
        (s.map fun r2 => Real.exp (attScore p R r2)).sum := by
  simp [sampleWeights, softmax, sampleScores, List.map_map, Function.comp_def]

/-- Permuting the rows of a sample leaves the aggregated weighted feature
unchanged. -/
theorem weightedFeature_perm (p : NetParams) (R : List ℝ → List ℝ)
    {s1 s2 : List (List ℝ)} (h : s1.Perm s2) :
    weightedFeature p R s1 = weightedFeature p R s2 := by
  have hd : (s1.map fun row => Real.exp (attScore p R row)).sum
      = (s2.map fun row => Real.exp (attScore p R row)).sum :=
    (h.map _).sum_eq
  have hfun : ∀ j : ℕ,
      (((sampleWeights p R s1).zip (s1.map fun row => emb p R row)).map
        fun we => we.1 * we.2.getD j 0).sum
      = (((sampleWeights p R s2).zip (s2.map fun row => emb p R row)).map
        fun we => we.1 * we.2.getD j 0).sum := by
    intro j
    rw [sampleWeights_eq, sampleWeights_eq, List.zip_map', List.zip_map',
      List.map_map, List.map_map, hd]
    exact (h.map _).sum_eq
  unfold weightedFeature
  exact List.map_congr_left fun j _ => hfun j

/-- Permuting the rows of a sample leaves the network value unchanged. -/
theorem sampleValue_perm (p : NetParams) (R : List ℝ → List ℝ)
    {s1 s2 : List (List ℝ)} (h : s1.Perm s2) :
    sampleValue p R s1 = sampleValue p R s2 := by
  unfold sampleValue
  rw [weightedFeature_perm p R h]

/-- Permuting the observed agents permutes the rows of the lookahead
batch of any candidate action. -/
theorem nextSample_perm (c : Collab) {st st2 : JointState} (a : Action)
    (hself : st2.self_state = st.self_state)
    (hperm : st.ped_states.Perm st2.ped_states) :
    (nextSample c st a).Perm (nextSample c st2 a) := by
  unfold nextSample nextRow
  rw [hself]
  exact hperm.map _

/-- C4: the scalar value of the attention network is invariant under
permutation of the agent rows of a sample, and consequently `predict`
returns the same action on two joint states that differ only by a
permutation of the agent ordering (with the external reward and
goal-reached collaborators respecting that the agent order carries no
meaning, as the design document states). -/
theorem value_action_perm_invariant
    (p : NetParams) (R : List ℝ → List ℝ) (c : Collab) (pol : PolicyState)
    (st st2 : JointState) (prob : ℝ) (ch : ℕ)
    (hmodel : c.model = fun s => sampleValue p R s)
    (hself : st2.self_state = st.self_state)
    (hperm : st.ped_states.Perm st2.ped_states)
    (hrw : ∀ a, c.reward st a pol.cfg.kinematics pol.time_step
      = c.reward st2 a pol.cfg.kinematics pol.time_step)
    (hreach : c.reach_destination st = c.reach_destination st2) :
    (∀ s1 s2 : List (List ℝ), s1.Perm s2 → sampleValue p R s1 = sampleValue p R s2) ∧
      resultAction (predict c pol st prob ch) = resultAction (predict c pol st2 prob ch) := by
  have hsv : ∀ s1 s2 : List (List ℝ), s1.Perm s2 → sampleValue p R s1 = sampleValue p R s2 :=
    fun s1 s2 h => sampleValue_perm p R h
  refine ⟨hsv, ?_⟩
  have hcand : candValue c pol st = candValue c pol st2 := by
    funext a
    unfold candValue
    simp only [hmodel]
    rw [hrw a, hself, hsv _ _ (nextSample_perm c a hself hperm)]
  have hv : st2.self_state.v_pref = st.self_state.v_pref := by rw [hself]
  by_cases h1 : pol.phase = none ∨ pol.device = none
  · simp [predict, h1, resultAction]
  · obtain ⟨hph, hdev⟩ := not_or.mp h1
    by_cases h2 : pol.phase = some .train ∧ pol.epsilon = none
    · simp [predict, h1, h2, resultAction]
    · by_cases h3 : c.reach_destination st = true
      · have h3b : c.reach_destination st2 = true := by rw [← hreach]; exact h3
        simp [predict, h1, h2, h3, h3b, resultAction]
      · have h3b : ¬c.reach_destination st2 = true := by rw [← hreach]; exact h3
        by_cases h4 : pol.phase = some .train ∧ prob < pol.epsilon.getD 0
        · have heps : ¬pol.epsilon = none := fun he => h2 ⟨h4.1, he⟩
          simp [predict, h1, h2, h3, h3b, h4, hph, hdev, heps, resultAction, hv]
        · simp [predict, h1, h2, h3, h3b, h4, hph, hdev, resultAction, hv, hcand]

/-- Concrete collaborator whose value network is the concrete attention
network. -/
noncomputable def wCollabNet : Collab :=
  { wCollab with model := fun s => sampleValue wNet id s }

/-- Witness for C4 at a concrete pair of joint states differing by a swap
of the two observed agents. -/
theorem value_action_perm_invariant_witness :
    (∀ s1 s2 : List (List ℝ), s1.Perm s2 → sampleValue wNet id s1 = sampleValue wNet id s2) ∧
      resultAction (predict wCollabNet (wPolicy (some .eval) none wCfg)
          { self_state := wSelf, ped_states := [wPed, wPed2] } 0 0)
        = resultAction (predict wCollabNet (wPolicy (some .eval) none wCfg)
          { self_state := wSelf, ped_states := [wPed2, wPed] } 0 0) :=
  value_action_perm_invariant wNet id wCollabNet (wPolicy (some .eval) none wCfg)
    { self_state := wSelf, ped_states := [wPed, wPed2] }
    { self_state := wSelf, ped_states := [wPed2, wPed] } 0 0 rfl rfl
    (List.Perm.swap wPed2 wPed []) (fun _ => rfl) rfl

/-! Characterization of the running-maximum loop of the exploitation
path: strict improvement replaces the incumbent, so the first candidate
attaining the final maximum is the one returned. -/

/-- Running the loop from an occupied accumulator yields either the
unchanged accumulator (nothing strictly exceeded it) or the first list
element strictly exceeding the accumulator and everything before it,
with nothing after it strictly exceeding it. -/
theorem maxLoop_some_spec (f : Action → ℝ) (as : List Action) :
    ∀ mv ma, ∃ v b, maxLoop f as (some (mv, ma)) = some (v, b) ∧ mv ≤ v ∧
      (∀ x ∈ as, f x ≤ v) ∧
      ((v = mv ∧ b = ma) ∨
        ∃ l1 l2, as = l1 ++ b :: l2 ∧ f b = v ∧ mv < v ∧
          (∀ x ∈ l1, f x < v) ∧ (∀ x ∈ l2, f x ≤ v)) := by
  induction as with
  | nil =>
    intro mv ma
    exact ⟨mv, ma, rfl, le_refl _, by simp, Or.inl ⟨rfl, rfl⟩⟩
  | cons a rest ih =>
    intro mv ma
    by_cases hcmp : mv < f a
    · obtain ⟨v, b, heq, hle, hub, hcase⟩ := ih (f a) a
      refine ⟨v, b, ?_, le_of_lt (lt_of_lt_of_le hcmp hle), ?_, ?_⟩
      · simp only [maxLoop]
        rw [if_pos hcmp]
        exact heq
      · intro x hx
        rcases List.mem_cons.mp hx with rfl | hx2
        · exact hle
        · exact hub x hx2
      · rcases hcase with ⟨hv, hb⟩ | ⟨l1, l2, hsplit, hfb, hlt, hbef, haft⟩
        · refine Or.inr ⟨[], rest, by simp [hb], by rw [hb, hv], hv ▸ hcmp, by simp, ?_⟩
          intro x hx
          exact hub x hx
        · refine Or.inr ⟨a :: l1, l2, by simp [hsplit], hfb, lt_trans hcmp hlt, ?_, haft⟩
          intro x hx
          rcases List.mem_cons.mp hx with rfl | hx2
          · exact hlt
          · exact hbef x hx2
    · obtain ⟨v, b, heq, hle, hub, hcase⟩ := ih mv ma
      have hax : f a ≤ v := le_trans (not_lt.mp hcmp) hle
      refine ⟨v, b, ?_, hle, ?_, ?_⟩
      · simp only [maxLoop]
        rw [if_neg hcmp]
        exact heq
      · intro x hx
        rcases List.mem_cons.mp hx with rfl | hx2
        · exact hax
        · exact hub x hx2
      · rcases hcase with ⟨hv, hb⟩ | ⟨l1, l2, hsplit, hfb, hlt, hbef, haft⟩
        · exact Or.inl ⟨hv, hb⟩
        · refine Or.inr ⟨a :: l1, l2, by simp [hsplit], hfb, hlt, ?_, haft⟩
          intro x hx
          rcases List.mem_cons.mp hx with rfl | hx2
          · exact lt_of_le_of_lt (not_lt.mp hcmp) hlt
          · exact hbef x hx2

/-- Running the loop from the empty accumulator on a nonempty list
returns the first element attaining the maximum of `f`: a split of the
list with everything before the returned element strictly below it and
everything after it at most it. -/
theorem maxLoop_argmax (f : Action → ℝ) (a0 : Action) (rest : List Action) :
    ∃ a l1 l2, maxLoop f (a0 :: rest) none = some (f a, a) ∧
      a0 :: rest = l1 ++ a :: l2 ∧
      (∀ x ∈ l1, f x < f a) ∧ (∀ x ∈ l2, f x ≤ f a) := by
  have h0 : maxLoop f (a0 :: rest) none = maxLoop f rest (some (f a0, a0)) := by
    simp only [maxLoop]
  obtain ⟨v, b, heq, _, hub, hcase⟩ := maxLoop_some_spec f rest (f a0) a0
  rcases hcase with ⟨hv, hb⟩ | ⟨l1, l2, hsplit, hfb, hlt, hbef, haft⟩
  · refine ⟨a0, [], rest, ?_, by simp, by simp, ?_⟩
    · rw [h0, heq, hv, hb]
    · intro x hx
      exact hv ▸ hub x hx
  · refine ⟨b, a0 :: l1, l2, ?_, by simp [hsplit], ?_, ?_⟩
    · rw [h0, heq, hfb]
    · intro x hx
      rcases List.mem_cons.mp hx with rfl | hx2
      · exact hfb ▸ hlt
      · exact hfb ▸ hbef x hx2
    · intro x hx
      exact hfb ▸ haft x hx

/-- C1: in the exploitation path (eval phase, or train phase when the
drawn random number is not below the exploration rate), on a joint state
with at least one observed agent and not at the goal, `predict` returns
the candidate action of maximal computed value in enumeration order of
the candidate action space, the first such action when several attain
the maximum: the action space splits around the returned action with
strictly smaller values before it and no larger value after it. -/
theorem predict_exploitation_argmax (c : Collab) (pol : PolicyState) (st : JointState)
    (prob : ℝ) (ch : ℕ)
    (hdev : pol.device = some ())
    (hph : pol.phase = some .eval ∨
      (pol.phase = some .train ∧ ∃ e, pol.epsilon = some e ∧ ¬prob < e))
    (hgoal : c.reach_destination st = false)
    (hped : st.ped_states ≠ []) :
    ∃ a l1 l2, resultAction (predict c pol st prob ch) = some (some a) ∧
      build_action_space pol.cfg st.self_state.v_pref = l1 ++ a :: l2 ∧
      (∀ x ∈ l1, candValue c pol st x < candValue c pol st a) ∧
      (∀ x ∈ l2, candValue c pol st x ≤ candValue c pol st a) := by
  have hc1 : ¬(pol.phase = none ∨ pol.device = none) := by
    rcases hph with h | ⟨h, _⟩ <;> simp [h, hdev]
  have hc2 : ¬(pol.phase = some .train ∧ pol.epsilon = none) := by
    rcases hph with h | ⟨h, hex⟩
    · simp [h]
    · obtain ⟨e, he, _⟩ := hex
      simp [h, he]
  have hc4 : ¬(pol.phase = some .train ∧ prob < pol.epsilon.getD 0) := by
    rcases hph with h | ⟨h, hex⟩
    · simp [h]
    · obtain ⟨e, he, hne⟩ := hex
      simp [h, he]
      exact not_lt.mp hne
  have hconsA : build_action_space pol.cfg st.self_state.v_pref =
      stopAction pol.cfg.kinematics ::
        (pol.cfg.rotations.flatMap fun r =>
          pol.cfg.speeds.map fun sp =>
            match pol.cfg.kinematics with
            | .holonomic => Action.xy (sp * st.self_state.v_pref * Real.cos r)
                (sp * st.self_state.v_pref * Real.sin r)
            | .unicycle => Action.rot (sp * st.self_state.v_pref) r) := rfl
  obtain ⟨a, l1, l2, hmax, hsplit, hbef, haft⟩ :=
    maxLoop_argmax (candValue c pol st) (stopAction pol.cfg.kinematics)
      (pol.cfg.rotations.flatMap fun r =>
        pol.cfg.speeds.map fun sp =>
          match pol.cfg.kinematics with
          | .holonomic => Action.xy (sp * st.self_state.v_pref * Real.cos r)
              (sp * st.self_state.v_pref * Real.sin r)
          | .unicycle => Action.rot (sp * st.self_state.v_pref) r)
  refine ⟨a, l1, l2, ?_, by rw [hconsA, hsplit], hbef, haft⟩
  simp only [predict]
  rw [if_neg hc1, if_neg hc2]
  rw [hgoal]
  simp only [Bool.false_eq_true, if_false]
  rw [if_neg hc4]
  rw [hconsA, hmax]
  simp [resultAction]

/-- Witness for C1 at a concrete eval-phase call with one observed
agent. -/
theorem predict_exploitation_argmax_witness :
    ∃ a l1 l2,
      resultAction (predict wCollab (wPolicy (some Phase.eval) none wCfg) wState 0 0)
          = some (some a) ∧
        build_action_space (wPolicy (some Phase.eval) none wCfg).cfg
            wState.self_state.v_pref = l1 ++ a :: l2 ∧
        (∀ x ∈ l1, candValue wCollab (wPolicy (some Phase.eval) none wCfg) wState x
            < candValue wCollab (wPolicy (some Phase.eval) none wCfg) wState a) ∧
        (∀ x ∈ l2, candValue wCollab (wPolicy (some Phase.eval) none wCfg) wState x
            ≤ candValue wCollab (wPolicy (some Phase.eval) none wCfg) wState a) :=
  predict_exploitation_argmax wCollab (wPolicy (some Phase.eval) none wCfg) wState 0 0
    rfl (Or.inl rfl) rfl (by simp [wState])

/-- Shared shape of the exploitation path: once the preconditions pass,
the goal is not reached and the exploration short-circuit does not fire,
`predict` returns the second component of the running-maximum loop over
the freshly built action space, with candidate values given by
`candValue`. -/
theorem exploitation_result (c : Collab) (pol : PolicyState) (st : JointState)
    (prob : ℝ) (ch : ℕ)
    (hc1 : ¬(pol.phase = none ∨ pol.device = none))
    (hc2 : ¬(pol.phase = some .train ∧ pol.epsilon = none))
    (hgoal : c.reach_destination st = false)
    (hc4 : ¬(pol.phase = some .train ∧ prob < pol.epsilon.getD 0)) :
    resultAction (predict c pol st prob ch) =
      some ((maxLoop (candValue c pol st)
        (build_action_space pol.cfg st.self_state.v_pref) none).map fun va => va.2) := by
  simp only [predict]
  rw [if_neg hc1, if_neg hc2, hgoal]
  simp only [Bool.false_eq_true, if_false]
  rw [if_neg hc4]
  simp [resultAction]

/-- C2: in the exploitation path, the value tracked for every candidate
action equals the immediate reward of the current state under that
action (with the configured kinematics and timestep) plus the discount
factor raised to the self agent's preferred speed times the network
value of the single-sample batch in which the self state is propagated
under the candidate and each observed agent is propagated under its
currently observed velocity. -/
theorem predict_tracked_value (c : Collab) (pol : PolicyState) (st : JointState)
    (prob : ℝ) (ch : ℕ)
    (hdev : pol.device = some ())
    (hph : pol.phase = some .eval ∨
      (pol.phase = some .train ∧ ∃ e, pol.epsilon = some e ∧ ¬prob < e))
    (hgoal : c.reach_destination st = false) :
    resultAction (predict c pol st prob ch) =
      some ((maxLoop (fun a =>
          c.reward st a pol.cfg.kinematics pol.time_step +
            pol.gamma ^ st.self_state.v_pref *
              c.model (st.ped_states.map fun ped =>
                (c.propagate_self st.self_state a).toList ++
                  (c.propagate_ped ped (Action.xy ped.vx ped.vy)).toList))
        (build_action_space pol.cfg st.self_state.v_pref) none).map fun va => va.2) := by
  have hc1 : ¬(pol.phase = none ∨ pol.device = none) := by
    rcases hph with h | ⟨h, _⟩ <;> simp [h, hdev]
  have hc2 : ¬(pol.phase = some .train ∧ pol.epsilon = none) := by
    rcases hph with h | ⟨h, hex⟩
    · simp [h]
    · obtain ⟨e, he, _⟩ := hex
      simp [h, he]
  have hc4 : ¬(pol.phase = some .train ∧ prob < pol.epsilon.getD 0) := by
    rcases hph with h | ⟨h, hex⟩
    · simp [h]
    · obtain ⟨e, he, hne⟩ := hex
      simp [h, he]
      exact not_lt.mp hne
  have hfun : (fun a =>
      c.reward st a pol.cfg.kinematics pol.time_step +
        pol.gamma ^ st.self_state.v_pref *
          c.model (st.ped_states.map fun ped =>
            (c.propagate_self st.self_state a).toList ++
              (c.propagate_ped ped (Action.xy ped.vx ped.vy)).toList)) = candValue c pol st := rfl
  rw [hfun]
  exact exploitation_result c pol st prob ch hc1 hc2 hgoal hc4

/-- Witness for C2 at a concrete eval-phase call. -/
theorem predict_tracked_value_witness :
    resultAction (predict wCollab (wPolicy (some Phase.eval) none wCfg) wState 0 0) =
      some ((maxLoop (fun a =>
          wCollab.reward wState a (wPolicy (some Phase.eval) none wCfg).cfg.kinematics
              (wPolicy (some Phase.eval) none wCfg).time_step +
            (wPolicy (some Phase.eval) none wCfg).gamma ^ wState.self_state.v_pref *
              wCollab.model (wState.ped_states.map fun ped =>
                (wCollab.propagate_self wState.self_state a).toList ++
                  (wCollab.propagate_ped ped (Action.xy ped.vx ped.vy)).toList))
        (build_action_space (wPolicy (some Phase.eval) none wCfg).cfg
          wState.self_state.v_pref) none).map fun va => va.2) :=
  predict_tracked_value wCollab (wPolicy (some Phase.eval) none wCfg) wState 0 0
    rfl (Or.inl rfl) rfl

/-- C10: when the goal-reached predicate holds (and the preconditions
pass), `predict` returns the stop action with the policy state returned
unchanged: the cached action space, the diagnostic attention weights and
the cached last observed state are exactly those before the call — in
particular the train-phase caching of the last observed state does not
happen on this path, and no action space is built and no network forward
evaluation occurs (no state component is touched). -/
theorem predict_goal_frame (c : Collab) (pol : PolicyState) (st : JointState)
    (prob : ℝ) (ch : ℕ)
    (hc1 : ¬(pol.phase = none ∨ pol.device = none))
    (hc2 : ¬(pol.phase = some .train ∧ pol.epsilon = none))
    (hgoal : c.reach_destination st = true) :
    predict c pol st prob ch = .ok (some (Action.xy 0 0), pol) := by
  simp only [predict]
  rw [if_neg hc1, if_neg hc2, hgoal]
  simp

/-- Witness for C10 at a concrete train-phase call whose goal predicate
holds. -/
theorem predict_goal_frame_witness :
    predict wCollabGoal (wPolicy (some Phase.train) (some 1) wCfg) wState 0 0
      = .ok (some (Action.xy 0 0), wPolicy (some Phase.train) (some 1) wCfg) :=
  predict_goal_frame wCollabGoal (wPolicy (some Phase.train) (some 1) wCfg) wState 0 0
    (by simp [wPolicy]) (by simp [wPolicy]) rfl

/-- C5 counterexample: under unicycle kinematics, a goal-reached call
returns the holonomic stop `ActionXY(0, 0)` (sarl.py line 77 returns it
unconditionally), but that action is not a member of the candidate
action space, whose actions are all of the unicycle variant — refuting
the membership clause of the claim as stated. -/
theorem predict_goal_stop_not_member :
    resultAction (predict wCollabGoal (wPolicy (some Phase.eval) none wCfgU) wState 0 0)
        = some (some (Action.xy 0 0)) ∧
      Action.xy 0 0 ∉ build_action_space wCfgU wState.self_state.v_pref := by
  constructor
  · simp [predict, wPolicy, wCollabGoal, wCollab, resultAction]
  · simp [build_action_space, wCfgU, stopAction]

/-- C5 (amended): whenever the goal-reached predicate holds, `predict`
returns the stop action `ActionXY(0, 0)` immediately, leaving the policy
state untouched (no network evaluation), irrespective of the observed
agents and of the configured kinematics mode; the returned action is a
member of the candidate action space under holonomic kinematics (under
unicycle kinematics the space's designated stop is `ActionRot(0, 0)` and
the returned action is not a member). -/
theorem predict_goal_stop (c : Collab) (pol : PolicyState) (st : JointState)
    (prob : ℝ) (ch : ℕ)
    (hc1 : ¬(pol.phase = none ∨ pol.device = none))
    (hc2 : ¬(pol.phase = some .train ∧ pol.epsilon = none))
    (hgoal : c.reach_destination st = true) :
    predict c pol st prob ch = .ok (some (Action.xy 0 0), pol) ∧
      (pol.cfg.kinematics = .holonomic →
        Action.xy 0 0 ∈ build_action_space pol.cfg st.self_state.v_pref) := by
  constructor
  · simp only [predict]
    rw [if_neg hc1, if_neg hc2, hgoal]
    simp
  · intro hkin
    simp [build_action_space, hkin, stopAction]

/-- Witness for the amended C5 at a concrete holonomic goal-reached
call. -/
theorem predict_goal_stop_witness :
    (predict wCollabGoal (wPolicy (some Phase.eval) none wCfg) wState 0 0
        = .ok (some (Action.xy 0 0), wPolicy (some Phase.eval) none wCfg)) ∧
      ((wPolicy (some Phase.eval) none wCfg).cfg.kinematics = .holonomic →
        Action.xy 0 0 ∈ build_action_space (wPolicy (some Phase.eval) none wCfg).cfg
          wState.self_state.v_pref) :=
  predict_goal_stop wCollabGoal (wPolicy (some Phase.eval) none wCfg) wState 0 0
    (by simp [wPolicy]) (by simp [wPolicy]) rfl

/-- C6: in train phase (with the preconditions passing) and the goal not
reached, `predict` stores the ego-centric transform of the current joint
state as the cached last observed state of the returned policy state. -/
theorem predict_train_caches_last_state (c : Collab) (pol : PolicyState) (st : JointState)
    (prob : ℝ) (ch : ℕ)
    (hph : pol.phase = some .train)
    (hdev : pol.device = some ())
    (heps : pol.epsilon ≠ none)
    (hgoal : c.reach_destination st = false) :
    ∃ a p2, predict c pol st prob ch = .ok (a, p2) ∧
      p2.last_state = some (transform st) := by
  have hc1 : ¬(pol.phase = none ∨ pol.device = none) := by simp [hph, hdev]
  have hc2 : ¬(pol.phase = some .train ∧ pol.epsilon = none) := fun hcon => heps hcon.2
  simp only [predict]
  rw [if_neg hc1, if_neg hc2, hgoal]
  simp only [Bool.false_eq_true, if_false]
  by_cases h4 : pol.phase = some .train ∧ prob < pol.epsilon.getD 0
  · rw [if_pos h4]
    refine ⟨_, _, rfl, ?_⟩
    simp [hph]
  · rw [if_neg h4]
    refine ⟨_, _, rfl, ?_⟩
    simp [hph]

/-- Witness for C6 at a concrete train-phase call. -/
theorem predict_train_caches_last_state_witness :
    ∃ a p2, predict wCollab (wPolicy (some Phase.train) (some 1) wCfg) wState 0 0
        = .ok (a, p2) ∧ p2.last_state = some (transform wState) :=
  predict_train_caches_last_state wCollab (wPolicy (some Phase.train) (some 1) wCfg)
    wState 0 0 rfl rfl (by simp [wPolicy]) rfl

/-- C7: `predict` fails with a precondition error — returning no action
and performing no state change — exactly when the phase or the compute
context is unset, or the phase is train and the exploration rate is
unset; in every other case it proceeds past the precondition checks and
returns a result. -/
theorem predict_precondition_iff (c : Collab) (pol : PolicyState) (st : JointState)
    (prob : ℝ) (ch : ℕ) :
    (∃ e, predict c pol st prob ch = .error e) ↔
      (pol.phase = none ∨ pol.device = none) ∨
        (pol.phase = some .train ∧ pol.epsilon = none) := by
  by_cases h1 : pol.phase = none ∨ pol.device = none
  · simp only [predict]
    rw [if_pos h1]
    simp [h1]
  · by_cases h2 : pol.phase = some .train ∧ pol.epsilon = none
    · simp only [predict]
      rw [if_neg h1, if_pos h2]
      simp [h1, h2]
    · simp only [predict]
      rw [if_neg h1, if_neg h2]
      simp only [h1, h2, or_self, iff_false, false_or]
      by_cases h3 : c.reach_destination st = true
      · simp [h3]
      · rw [Bool.not_eq_true] at h3
        rw [h3]
        simp only [Bool.false_eq_true, if_false]
        by_cases h4 : pol.phase = some .train ∧ prob < pol.epsilon.getD 0
        · simp [h4]
        · simp [h4]

/-- C9: the transform of a joint state with observed agents has exactly
one row per agent, in agent order, and each row is the concatenation of
the (identical) self-state field prefix with the corresponding agent's
field suffix. -/
theorem transform_rows (st : JointState) (hN : st.ped_states ≠ []) :
    (transform st).length = st.ped_states.length ∧
      ∀ i (hi : i < st.ped_states.length),
        (transform st).get ⟨i, by simpa [transform] using hi⟩ =
          st.self_state.toList ++ (st.ped_states.get ⟨i, hi⟩).toList := by
  constructor
  · simp [transform]
  · intro i hi
    simp [transform, jointRow]

/-- Witness for C9 at a concrete one-agent joint state. -/
theorem transform_rows_witness :
    (transform wState).length = wState.ped_states.length ∧
      ∀ i (hi : i < wState.ped_states.length),
        (transform wState).get ⟨i, by simpa [transform] using hi⟩ =
          wState.self_state.toList ++ (wState.ped_states.get ⟨i, hi⟩).toList :=
  transform_rows wState (by simp [wState])

/-- C8: with exploration rate zero, a train-phase call returns the same
action as an eval-phase call on the same state with the same model and
configuration, for every drawn random number in the unit interval. -/
theorem predict_eps_zero_matches_eval (c : Collab) (pol : PolicyState) (st : JointState)
    (prob : ℝ) (ch : ℕ) (hprob : 0 ≤ prob) :
    resultAction (predict c { pol with phase := some .train, epsilon := some 0 } st prob ch) =
      resultAction (predict c { pol with phase := some .eval } st prob ch) := by
  have hnp : ¬prob < 0 := not_lt.mpr hprob
  have hcv : candValue c { pol with phase := some Phase.train, epsilon := some (0 : ℝ) } st
      = candValue c { pol with phase := some Phase.eval } st := rfl
  by_cases hdev : pol.device = none
  · simp [predict, hdev, resultAction]
  · by_cases h3 : c.reach_destination st = true
    · simp [predict, hdev, h3, resultAction]
    · simp [predict, hdev, h3, hnp, resultAction, hcv]

/-- Witness for C8 at a concrete call with the drawn number zero. -/
theorem predict_eps_zero_matches_eval_witness :
    resultAction (predict wCollab
        { wPolicy none none wCfg with phase := some Phase.train, epsilon := some 0 }
        wState 0 0) =
      resultAction (predict wCollab
        { wPolicy none none wCfg with phase := some Phase.eval } wState 0 0) :=
  predict_eps_zero_matches_eval wCollab (wPolicy none none wCfg) wState 0 0 le_rfl

end Sarl
